import Mathlib

/-!
Shallow embedding of the path-planner core (graph model, nearest-edge locator
refinement, A* route planner) of the repository, together with proofs settling
the specification claims.

Conventions of the embedding:
* JS numbers are modelled as exact rationals (`ℚ`), except for `_distance`,
  whose `Math.cos`/`Math.sqrt` calls are modelled over the reals (`ℝ`).
  The planner treats the distance function as a black box, so it is
  parametrised by an arbitrary score type `β` with a linear order, zero and
  addition; the real program instantiates it with `_distance` over `ℝ`, the
  concrete test graphs instantiate it with a computable integer distance
  that is `_distance` rescaled by 1e7 on nodes of equal longitude
  (`distance_eq_distZ_of_eq_long`).
* A JS `Map` from node ids to numbers is modelled as a function
  `ℕ → WithTop β`; `⊤` covers both "key absent" and the explicit `Infinity`
  sentinel the code stores before the first comparison, which the code never
  distinguishes.  The key insertion order (which only matters for the
  debug-frontier output) is tracked in a separate key list.
* A JS sparse array (`Array(n)` with holes) is modelled as
  `ℕ → Option (List _)`; `none` is an unassigned hole (`undefined`).
* A JS runtime fault (iterating `undefined`, or a non-terminating
  reconstruction loop on a `came_from` cycle) is modelled as an outer `none`;
  a returned `null` is `some none`; a returned array is `some (some _)`.
* Unbounded `while` loops are modelled with an explicit bound that the loop
  body provably respects: the planner loop is bounded by its own
  `max_attempts` budget, the binary-search insertion loop by the size of the
  shrinking interval, and the path reconstruction by the number of
  `came_from` entries plus one (a longer chain would repeat a node and hence
  make the JS loop diverge, which is the outer `none`).
-/

/-- A map node: fixed-point decimicro-degree coordinates (1 unit = 1e-7 degree). -/
structure Node where
  long : ℤ
  lat : ℤ
deriving DecidableEq, Inhabited

/-- A way: an ordered polyline of node ids plus free-text tags. -/
structure Way where
  nodes : List ℕ
  tags : List String
deriving DecidableEq, Inhabited

/-- The in-memory dataset: node array, way array, and the node→(way, position)
adjacency index built by `_preprocessData` (a sparse JS array, so a function
into `Option`). -/
structure MapData where
  nodes : List Node
  ways : List Way
  node_to_way : ℕ → Option (List (ℕ × ℕ))

/-- `_nodeToLongLat`: decimicro-degree ints to floating degrees. -/
def _nodeToLongLat (node : Node) : ℚ × ℚ :=
  ((node.long : ℚ) / 10000000, (node.lat : ℚ) / 10000000)

/-- `_nodeIdToLongLat`: look a node id up in the node array and convert. -/
def _nodeIdToLongLat (d : MapData) (node_id : ℕ) : ℚ × ℚ :=
  _nodeToLongLat (d.nodes.getD node_id default)

/-! ### Nearest-edge locator -/

/-- `WAY_FINDER_RES`: the rasterization oracle window is 11×11 samples. -/
def WAY_FINDER_RES : ℕ := 11

/-- `_pixelFromBuffer`: read sample `(x, y)` out of the RGBA-strided readback
buffer (4 ints per pixel, row-major, row length `WAY_FINDER_RES`). -/
def _pixelFromBuffer (pixels : ℕ → ℤ) (x y : ℕ) : ℤ :=
  pixels (4 * (y * WAY_FINDER_RES + x))

/-- The probe coordinates the spiral search visits for one ring
(`dist` = Chebyshev radius): the two horizontal borders scanned left to
right, then the two vertical borders scanned top to bottom, exactly in the
order of the two `for` loops of `_spiralSearchWayId`. -/
def ringProbes (dist : ℕ) : List (ℕ × ℕ) :=
  (List.range (5 + dist - (5 - dist) + 1)).flatMap
    (fun k => [(5 - dist + k, 5 - dist), (5 - dist + k, 5 + dist)]) ++
  (List.range (5 + dist - (5 - dist) + 1)).flatMap
    (fun k => [(5 - dist, 5 - dist + k), (5 + dist, 5 - dist + k)])

/-- All probes of the spiral search, ring by ring (`dist` = 0, …, 5,
i.e. `center_val + 1` rings with `center_val = ⌊11 / 2⌋ = 5`). -/
def spiralProbes : List (ℕ × ℕ) :=
  (List.range 6).flatMap ringProbes

/-- `_spiralSearchWayId`: return the first sample that is not the `-1`
clear value, walking the probe sequence ring by ring; `-1` if every probe
fails. -/
def _spiralSearchWayId (pixels : ℕ → ℤ) : ℤ :=
  match spiralProbes.find? (fun p => decide (_pixelFromBuffer pixels p.1 p.2 ≠ -1)) with
  | some p => _pixelFromBuffer pixels p.1 p.2
  | none => -1

/-- Chebyshev distance of a sample from the window center `(5, 5)` (natural
number arithmetic, so each `·-·` pair encodes an absolute difference). -/
def chebDist (x y : ℕ) : ℕ :=
  max (max (x - 5) (5 - x)) (max (y - 5) (5 - y))

/-- One step of the running strict minimum used by `_findWayPosition`:
`none` is the initial `Infinity`, and a sample replaces the incumbent only
when strictly closer (`dist_2 < min_dist_2`), so the earliest closest sample
wins ties. -/
def runMinStep {α : Type} (key : α → ℚ) (st : Option (ℚ × α)) (p : α) : Option (ℚ × α) :=
  match st with
  | none => some (key p, p)
  | some (m, q) => if key p < m then some (key p, p) else some (m, q)

/-- The squared planar distance computed in the innermost loop of
`_findWayPosition`: interpolate between the two endpoint nodes of segment
`p.1` of the node list `wn` at factor `p.2` and take the squared distance to
`(long, lat)`. -/
def sampleDist2 (d : MapData) (wn : List ℕ) (long lat : ℚ) (p : ℕ × ℚ) : ℚ :=
  let n1 := d.nodes.getD (wn.getD p.1 0) default
  let n2 := d.nodes.getD (wn.getD (p.1 + 1) 0) default
  let n1_longlat := _nodeToLongLat n1
  let n2_longlat := _nodeToLongLat n2
  let way_long := (n2_longlat.1 - n1_longlat.1) * p.2 + n1_longlat.1
  let way_lat := (n2_longlat.2 - n1_longlat.2) * p.2 + n1_longlat.2
  (way_long - long) * (way_long - long) + (way_lat - lat) * (way_lat - lat)

/-- `_findWayPosition`: walk every segment of the candidate way, sample the
11 factors 0, 1/10, …, 1 along it, and keep the segment index and factor of
the strictly closest sample to `(long, lat)`.  Returns `none` for the
sentinel way id `-1` and for a way with fewer than 2 nodes (the JS code
returns `[null, null]` in both cases). -/
def _findWayPosition (d : MapData) (way_id : ℤ) (long lat : ℚ) : Option (ℕ × ℚ) :=
  if way_id = -1 then none
  else
    let way_nodes := (d.ways.getD way_id.toNat ⟨[], []⟩).nodes
    let st := ((List.range (way_nodes.length - 1)).flatMap
      (fun seg => (List.range 11).map (fun k : ℕ => (seg, (k : ℚ) / 10)))).foldl
      (runMinStep (sampleDist2 d way_nodes long lat)) none
    st.map (fun x => x.2)

/-- `_wayPositionToLongLat`: resolve a RoadPosition `(way_id, segment, factor)`
to degrees by interpolating the decimicro coordinates of the segment's two
endpoint nodes and dividing by 1e7. -/
def _wayPositionToLongLat (d : MapData) (wp : ℕ × ℕ × ℚ) : ℚ × ℚ :=
  let way := d.ways.getD wp.1 ⟨[], []⟩
  let n1 := d.nodes.getD (way.nodes.getD wp.2.1 0) default
  let n2 := d.nodes.getD (way.nodes.getD (wp.2.1 + 1) 0) default
  ((((n2.long : ℚ) - (n1.long : ℚ)) * wp.2.2 + (n1.long : ℚ)) / 10000000,
   (((n2.lat : ℚ) - (n1.lat : ℚ)) * wp.2.2 + (n1.lat : ℚ)) / 10000000)

/-! ### Graph model -/

/-- Inner loop of `_preprocessData`: push `(way_id, position)` entries for
every node of one way, creating the entry list on first touch (the
`=== undefined` check of the JS code). -/
def addWayEntries (m : ℕ → Option (List (ℕ × ℕ))) (way_id : ℕ) :
    List ℕ → ℕ → ℕ → Option (List (ℕ × ℕ))
  | [], _ => m
  | node_id :: rest, i =>
      addWayEntries
        (fun k => if k = node_id then some ((m node_id).getD [] ++ [(way_id, i)]) else m k)
        way_id rest (i + 1)

/-- Outer loop of `_preprocessData` over the way array, carrying the current
way index. -/
def preprocessFrom (m : ℕ → Option (List (ℕ × ℕ))) :
    List Way → ℕ → ℕ → Option (List (ℕ × ℕ))
  | [], _ => m
  | way :: rest, way_id => preprocessFrom (addWayEntries m way_id way.nodes 0) rest (way_id + 1)

/-- `_preprocessData`: build the node→(way, position) adjacency index in one
pass over the ways.  Node ids never touched stay `none` (a hole of the JS
`Array(data.nodes.length)`). -/
def _preprocessData (ways : List Way) : ℕ → Option (List (ℕ × ℕ)) :=
  preprocessFrom (fun _ => none) ways 0

/-- Body of the `_neighbors` loop for one adjacency entry: push the next node
of the way (unless the entry is the way's last position) and then the
previous node (unless it is the first). -/
def neighStep (d : MapData) (acc : List ℕ) (e : ℕ × ℕ) : List ℕ :=
  let way := d.ways.getD e.1 ⟨[], []⟩
  let acc2 := if e.2 + 1 ≠ way.nodes.length then acc ++ [way.nodes.getD (e.2 + 1) 0] else acc
  if e.2 ≠ 0 then acc2 ++ [way.nodes.getD (e.2 - 1) 0] else acc2

/-- The neighbor list accumulated from a node's adjacency entries. -/
def neighborsOfEntries (d : MapData) (entries : List (ℕ × ℕ)) : List ℕ :=
  entries.foldl (neighStep d) []

/-- `_neighbors`: iterate over `data.node_to_way[node_id]`.  When that slot
is an unassigned hole (`undefined`), the JS `for…of` throws a `TypeError`;
this fault is the outer `none`. -/
def _neighbors (d : MapData) (node_id : ℕ) : Option (List ℕ) :=
  (d.node_to_way node_id).map (neighborsOfEntries d)

/-- `_distance`: planar approximation over the reals; the longitude delta is
scaled by the cosine of the *second* node's latitude (converted with the
code's literal 3.1415962 for π), both deltas are brought to degrees, and the
Euclidean norm is taken. -/
noncomputable def _distance (n1 n2 : Node) : ℝ :=
  let long_dist0 : ℝ := (n2.long : ℝ) - (n1.long : ℝ)
  let lat_dist0 : ℝ := (n2.lat : ℝ) - (n1.lat : ℝ)
  let long_dist : ℝ :=
    long_dist0 * Real.cos ((n2.lat : ℝ) / 10000000 * 3.1415962 / 180) / 10000000
  let lat_dist : ℝ := lat_dist0 / 10000000
  Real.sqrt (long_dist * long_dist + lat_dist * lat_dist)

/-- Computable integer distance (decimicro-degree units) used to instantiate
the planner on concrete test graphs: for two nodes of equal longitude it is
`_distance` rescaled by 1e7 (`distance_eq_distZ_of_eq_long`). -/
def distZ (n1 n2 : Node) : ℤ :=
  |n2.lat - n1.lat|

/-! ### Path planner -/

/-- The bounded body of the `_insertIntoOpenSet` binary-search `while` loop.
The first argument is an iteration bound: every iteration shrinks
`last_greater - last_less` by at least one, so starting the bound at that
gap makes the `0` case unreachable and the function equal to the JS loop. -/
def insertLoop {γ : Type} [LinearOrder γ] (f_scores : ℕ → γ) (open_set : List ℕ)
    (val_score : γ) : ℕ → ℕ → ℕ → ℕ
  | 0, last_less, _ => last_less
  | fuel + 1, last_less, last_greater =>
    if last_greater - last_less > 1 then
      if f_scores (open_set.getD ((last_less + last_greater) / 2) 0) < val_score then
        insertLoop f_scores open_set val_score fuel ((last_less + last_greater) / 2) last_greater
      else
        insertLoop f_scores open_set val_score fuel last_less ((last_less + last_greater) / 2)
    else last_less

/-- `_insertIntoOpenSet`: push onto an empty array (without returning — the
code then also splices), binary-search an insertion index between
`last_less = 0` and `last_greater = length`, and splice the value in at
`last_less`. -/
def _insertIntoOpenSet {γ : Type} [LinearOrder γ] (open_set : List ℕ) (f_scores : ℕ → γ)
    (val : ℕ) : List ℕ :=
  let os := if open_set.length = 0 then open_set ++ [val] else open_set
  let last_less := insertLoop f_scores os (f_scores val) os.length 0 os.length
  os.take last_less ++ [val] ++ os.drop last_less

/-- Per-invocation A* search state: the open set, the `came_from`, `g_score`
and `f_score` maps, and the JS-`Map` key insertion orders of the latter two
(`cf_keys` sizes the reconstruction bound, `f_keys` orders the debug
frontier output). -/
structure SearchState (β : Type) where
  open_set : List ℕ
  came_from : ℕ → Option ℕ
  cf_keys : List ℕ
  g_score : ℕ → WithTop β
  f_score : ℕ → WithTop β
  f_keys : List ℕ

/-- Relax one neighbor of the popped `item`: compute the tentative g-score,
and on strict improvement record `came_from`, update the score maps and
(re)insert the neighbor into the open set. -/
def relaxNeighbor {β : Type} [LinearOrder β] [Add β] (d : MapData)
    (dist : Node → Node → β) (end_node item : ℕ) (st : SearchState β)
    (neighbor : ℕ) : SearchState β :=
  let neighbor_distance := dist (d.nodes.getD item default) (d.nodes.getD neighbor default)
  let tentative : WithTop β := st.g_score item + (neighbor_distance : WithTop β)
  if tentative < st.g_score neighbor then
    let fval : WithTop β :=
      tentative + (dist (d.nodes.getD neighbor default) (d.nodes.getD end_node default) : WithTop β)
    let f' : ℕ → WithTop β := fun n => if n = neighbor then fval else st.f_score n
    { open_set := _insertIntoOpenSet st.open_set f' neighbor
      came_from := fun n => if n = neighbor then some item else st.came_from n
      cf_keys := if (st.came_from neighbor).isSome then st.cf_keys else st.cf_keys ++ [neighbor]
      g_score := fun n => if n = neighbor then tentative else st.g_score n
      f_score := f'
      f_keys := if st.f_score neighbor ≠ ⊤ then st.f_keys else st.f_keys ++ [neighbor] }
  else st

/-- The `for (let neighbor of _neighbors(...))` loop of `_planRoute`. -/
def planStepNeighbors {β : Type} [LinearOrder β] [Add β] (d : MapData)
    (dist : Node → Node → β) (end_node item : ℕ) (nbrs : List ℕ)
    (st : SearchState β) : SearchState β :=
  nbrs.foldl (relaxNeighbor d dist end_node item) st

/-- The bounded `while (came_from.has(current))` loop of `_reconstructPath`,
accumulating coordinates target-first.  Exhausting the bound models the JS
loop running forever on a `came_from` cycle. -/
def reconstructLoop (d : MapData) (came_from : ℕ → Option ℕ) :
    ℕ → ℕ → List (ℚ × ℚ) → Option (List (ℚ × ℚ))
  | 0, _, _ => none
  | fuel + 1, current, total_path =>
      match came_from current with
      | none => some total_path
      | some prev => reconstructLoop d came_from fuel prev (total_path ++ [_nodeIdToLongLat d prev])

/-- The predicate "this node list is a maximal `came_from` chain": each node
points to the next and the last one has no predecessor. -/
def cfChain (came_from : ℕ → Option ℕ) : List ℕ → Prop
  | [] => True
  | [x] => came_from x = none
  | x :: y :: rest => came_from x = some y ∧ cfChain came_from (y :: rest)

/-- A JS value returned by `_planRoute`: `null` or an array of coordinates. -/
abbrev JSVal := Option (List (ℚ × ℚ))

/-- The main `while` loop of `_planRoute`; the fuel is the remaining budget
`max_attempts - i`.  Outer `none` is a JS fault (neighbor lookup throwing, or
reconstruction diverging). -/
def planLoop {β : Type} [LinearOrder β] [Add β] (d : MapData) (dist : Node → Node → β)
    (end_node : ℕ) (debug_paths : Bool) : ℕ → SearchState β → Option JSVal
  | 0, st => some (if debug_paths then some (st.f_keys.map (_nodeIdToLongLat d)) else none)
  | fuel + 1, st =>
    match st.open_set with
    | [] => some (if debug_paths then some (st.f_keys.map (_nodeIdToLongLat d)) else none)
    | item :: rest =>
      if item = end_node then
        if debug_paths then some (some (st.f_keys.map (_nodeIdToLongLat d)))
        else
          (reconstructLoop d st.came_from (st.cf_keys.length + 1) item
            [_nodeIdToLongLat d item]).map some
      else
        match _neighbors d item with
        | none => none
        | some nbrs =>
            planLoop d dist end_node debug_paths fuel
              (planStepNeighbors d dist end_node item nbrs { st with open_set := rest })

/-- The node a RoadPosition is snapped to before search: the first endpoint
of its segment, `data.ways[pos[0]].nodes[pos[1]]`. -/
def snappedNode (d : MapData) (pos : ℕ × ℕ × ℚ) : ℕ :=
  (d.ways.getD pos.1 ⟨[], []⟩).nodes.getD pos.2.1 0

/-- `_planRoute`: null-guard on the two RoadPositions, snap them to way
nodes, seed the search state and run the bounded A* loop.  `max_attempts`
is the `node_budget` (the `max-path-nodes` input). -/
def _planRoute {β : Type} [LinearOrder β] [Add β] [Zero β] (d : MapData)
    (dist : Node → Node → β) (start end_ : Option (ℕ × ℕ × ℚ)) (debug_paths : Bool)
    (max_attempts : ℕ) : Option JSVal :=
  match start, end_ with
  | some s, some e =>
      let start_node := snappedNode d s
      let end_node := snappedNode d e
      planLoop d dist end_node debug_paths max_attempts
        { open_set := [start_node]
          came_from := fun _ => none
          cf_keys := []
          g_score := fun n => if n = start_node then (0 : WithTop β) else ⊤
          f_score := fun n =>
            if n = start_node then
              ((dist (d.nodes.getD start_node default) (d.nodes.getD end_node default) : β) :
                WithTop β)
            else ⊤
          f_keys := [start_node] }
  | _, _ => some none

/-- Two node ids are adjacent within some way of the graph: they occur at
consecutive positions of that way's node sequence. -/
def Adjacent (d : MapData) (a b : ℕ) : Prop :=
  ∃ w ∈ d.ways, ∃ i,
    (w.nodes.get? i = some a ∧ w.nodes.get? (i + 1) = some b) ∨
    (w.nodes.get? i = some b ∧ w.nodes.get? (i + 1) = some a)

/-- The planner-loop invariant: every open-set member is the start node or
has a recorded predecessor, and every `came_from` edge connects way-adjacent
nodes and points to a node that is itself the start or has a predecessor. -/
def PlanInv {β : Type} (d : MapData) (start_node : ℕ) (st : SearchState β) : Prop :=
  (∀ x ∈ st.open_set, x = start_node ∨ (st.came_from x).isSome) ∧
  (∀ y x, st.came_from y = some x →
    Adjacent d x y ∧ (x = start_node ∨ (st.came_from x).isSome))

/-! ### Concrete test data -/

/-- Four nodes on one meridian; decimicro latitudes 0, 1e7, 3e7, 4e7. -/
def testNodes : List Node := [⟨0, 0⟩, ⟨0, 10000000⟩, ⟨0, 30000000⟩, ⟨0, 40000000⟩]

/-- Two disconnected ways: node 0–1 and node 2–3. -/
def testWays : List Way := [⟨[0, 1], []⟩, ⟨[2, 3], []⟩]

/-- The concrete dataset built the way `init()` does: ways plus the
adjacency index from `_preprocessData`. -/
def testData : MapData := ⟨testNodes, testWays, _preprocessData testWays⟩

/-- A dataset with one node that occurs in no way at all. -/
def lonelyData : MapData := ⟨[⟨0, 0⟩], [], _preprocessData []⟩

/-! ### List access helpers -/

/-- Reading a list with a default at an index known to hold `a` yields `a`. -/
theorem getD_of_get? {α : Type} {l : List α} {n : ℕ} {a : α} (dflt : α)
    (h : l.get? n = some a) : l.getD n dflt = a := by
  show (l.get? n).getD dflt = a
  rw [h]
  rfl

/-- An in-range read with a default is the `get?` value. -/
theorem get?_eq_getD_of_lt {α : Type} {l : List α} {n : ℕ} (dflt : α)
    (h : n < l.length) : l.get? n = some (l.getD n dflt) := by
  rw [List.get?_eq_get h]
  have : l.getD n dflt = l.get ⟨n, h⟩ := by
    show (l.get? n).getD dflt = _
    rw [List.get?_eq_get h]
    rfl
  rw [this]

/-! ### Characterisation of the adjacency index -/

/-- `addWayEntries` leaves a slot unassigned iff it was unassigned and the
node does not occur in the processed node list. -/
theorem addWayEntries_eq_none (way_id k : ℕ) :
    ∀ (nodes : List ℕ) (m : ℕ → Option (List (ℕ × ℕ))) (i : ℕ),
      addWayEntries m way_id nodes i k = none ↔ m k = none ∧ k ∉ nodes
  | [], m, i => by simp [addWayEntries]
  | node_id :: rest, m, i => by
    rw [addWayEntries, addWayEntries_eq_none way_id k rest _ (i + 1)]
    by_cases h : k = node_id
    · subst h
      simp
    · simp [h]

/-- Membership in an `addWayEntries` slot: an old entry, or the processed way
at an offset where the node occurs. -/
theorem mem_addWayEntries (way_id k w j : ℕ) :
    ∀ (nodes : List ℕ) (m : ℕ → Option (List (ℕ × ℕ))) (i : ℕ),
      (w, j) ∈ ((addWayEntries m way_id nodes i) k).getD [] ↔
        (w, j) ∈ ((m k).getD []) ∨
          (w = way_id ∧ ∃ t, nodes.get? t = some k ∧ j = i + t)
  | [], m, i => by simp [addWayEntries]
  | node_id :: rest, m, i => by
    rw [addWayEntries, mem_addWayEntries way_id k w j rest _ (i + 1)]
    by_cases h : k = node_id
    · subst h
      have hup : (if k = k then some ((m k).getD [] ++ [(way_id, i)]) else m k)
          = some ((m k).getD [] ++ [(way_id, i)]) := if_pos rfl
      rw [hup]
      simp only [Option.getD_some, List.mem_append, List.mem_singleton, Prod.mk.injEq]
      constructor
      · rintro ((hb | ⟨h1, h2⟩) | ⟨h1, t, ht, h2⟩)
        · exact Or.inl hb
        · exact Or.inr ⟨h1, 0, by simp, by omega⟩
        · exact Or.inr ⟨h1, t + 1, by simpa using ht, by omega⟩
      · rintro (hb | ⟨h1, t, ht, h2⟩)
        · exact Or.inl (Or.inl hb)
        · cases t with
          | zero => exact Or.inl (Or.inr ⟨h1, by omega⟩)
          | succ t' => exact Or.inr ⟨h1, t', by simpa using ht, by omega⟩
    · have hup : (if k = node_id then some ((m node_id).getD [] ++ [(way_id, i)]) else m k)
          = m k := if_neg h
      rw [hup]
      constructor
      · rintro (hb | ⟨h1, t, ht, h2⟩)
        · exact Or.inl hb
        · exact Or.inr ⟨h1, t + 1, by simpa using ht, by omega⟩
      · rintro (hb | ⟨h1, t, ht, h2⟩)
        · exact Or.inl hb
        · cases t with
          | zero =>
            exfalso
            simp at ht
            exact h ht.symm
          | succ t' => exact Or.inr ⟨h1, t', by simpa using ht, by omega⟩

theorem preprocessFrom_eq_none (k : ℕ) :
    ∀ (ways : List Way) (m : ℕ → Option (List (ℕ × ℕ))) (wid : ℕ),
      preprocessFrom m ways wid k = none ↔ m k = none ∧ ∀ w ∈ ways, k ∉ w.nodes
  | [], m, wid => by simp [preprocessFrom]
  | way :: rest, m, wid => by
    rw [preprocessFrom, preprocessFrom_eq_none k rest _ (wid + 1),
      addWayEntries_eq_none]
    simp [and_assoc]

/-- Membership in a `preprocessFrom` slot: an old entry, or a way among the
remaining ones (at its offset from the running way index) containing the
node at the entry's position. -/
theorem mem_preprocessFrom (k w j : ℕ) :
    ∀ (ways : List Way) (m : ℕ → Option (List (ℕ × ℕ))) (wid : ℕ),
      (w, j) ∈ ((preprocessFrom m ways wid) k).getD [] ↔
        (w, j) ∈ ((m k).getD []) ∨
          ∃ dw way, ways.get? dw = some way ∧ w = wid + dw ∧
            way.nodes.get? j = some k
  | [], m, wid => by simp [preprocessFrom]
  | way :: rest, m, wid => by
    rw [preprocessFrom, mem_preprocessFrom k w j rest _ (wid + 1),
      mem_addWayEntries]
    constructor
    · rintro ((hb | ⟨h1, t, ht, h2⟩) | ⟨dw, way', hg, hw, hn⟩)
      · exact Or.inl hb
      · exact Or.inr ⟨0, way, by simp, by omega, by rwa [show j = t by omega]⟩
      · exact Or.inr ⟨dw + 1, way', by simpa using hg, by omega, hn⟩
    · rintro (hb | ⟨dw, way', hg, hw, hn⟩)
      · exact Or.inl (Or.inl hb)
      · cases dw with
        | zero =>
          simp at hg
          subst hg
          exact Or.inl (Or.inr ⟨by omega, j, hn, by omega⟩)
        | succ dw' => exact Or.inr ⟨dw', way', by simpa using hg, by omega, hn⟩

/-- The adjacency invariant of the spec: an entry `(w, j)` is recorded for
node `k` exactly when way `w` exists and holds `k` at position `j`. -/
theorem preprocess_mem_iff (ways : List Way) (k w j : ℕ) :
    (w, j) ∈ ((_preprocessData ways k).getD []) ↔
      ∃ way, ways.get? w = some way ∧ way.nodes.get? j = some k := by
  rw [_preprocessData, mem_preprocessFrom]
  constructor
  · rintro (hb | ⟨dw, way, hg, hw, hn⟩)
    · simp at hb
    · exact ⟨way, by rwa [show w = dw by omega], hn⟩
  · rintro ⟨way, hg, hn⟩
    exact Or.inr ⟨w, way, hg, by omega, hn⟩

/-- A node id occurring in no way has an unassigned (hole) adjacency slot. -/
theorem preprocess_eq_none_iff (ways : List Way) (k : ℕ) :
    _preprocessData ways k = none ↔ ∀ w ∈ ways, k ∉ w.nodes := by
  rw [_preprocessData, preprocessFrom_eq_none]
  simp

/-! ### Characterisation of `_neighbors` -/

/-- Membership in the `_neighbors` fold: already accumulated, or contributed
by one adjacency entry through its next-node or previous-node push. -/
theorem mem_neighborsFold (d : MapData) (b : ℕ) (entries : List (ℕ × ℕ)) :
    ∀ (acc : List ℕ),
      b ∈ entries.foldl (neighStep d) acc ↔ b ∈ acc ∨ ∃ e ∈ entries,
        (e.2 + 1 ≠ (d.ways.getD e.1 ⟨[], []⟩).nodes.length ∧
          b = (d.ways.getD e.1 ⟨[], []⟩).nodes.getD (e.2 + 1) 0) ∨
        (e.2 ≠ 0 ∧ b = (d.ways.getD e.1 ⟨[], []⟩).nodes.getD (e.2 - 1) 0) := by
  induction entries with
  | nil => intro acc; simp
  | cons e rest ih =>
    intro acc
    rw [List.foldl_cons, ih]
    have hstep : b ∈ neighStep d acc e ↔ b ∈ acc ∨
        ((e.2 + 1 ≠ (d.ways.getD e.1 ⟨[], []⟩).nodes.length ∧
          b = (d.ways.getD e.1 ⟨[], []⟩).nodes.getD (e.2 + 1) 0) ∨
        (e.2 ≠ 0 ∧ b = (d.ways.getD e.1 ⟨[], []⟩).nodes.getD (e.2 - 1) 0)) := by
      simp only [neighStep]
      by_cases h1 : e.2 + 1 ≠ (d.ways.getD e.1 ⟨[], []⟩).nodes.length <;>
        by_cases h2 : e.2 ≠ 0
      · rw [if_pos h1, if_pos h2]
        simp only [List.mem_append, List.mem_singleton]
        tauto
      · rw [if_pos h1, if_neg h2]
        simp only [List.mem_append, List.mem_singleton]
        tauto
      · rw [if_neg h1, if_pos h2]
        simp only [List.mem_append, List.mem_singleton]
        tauto
      · rw [if_neg h1, if_neg h2]
        tauto
    rw [hstep]
    constructor
    · rintro ((hb | he) | ⟨x, hx, hhit⟩)
      · exact Or.inl hb
      · exact Or.inr ⟨e, List.mem_cons_self e rest, he⟩
      · exact Or.inr ⟨x, List.mem_cons_of_mem e hx, hhit⟩
    · rintro (hb | ⟨x, hx, hhit⟩)
      · exact Or.inl (Or.inl hb)
      · rcases List.mem_cons.mp hx with h | h
        · subst h
          exact Or.inl (Or.inr hhit)
        · exact Or.inr ⟨x, h, hhit⟩

theorem neighbors_eq_of_entries {d : MapData} {node_id : ℕ} {entries : List (ℕ × ℕ)}
    (h : d.node_to_way node_id = some entries) :
    _neighbors d node_id = some (neighborsOfEntries d entries) := by
  unfold _neighbors
  rw [h]
  rfl

/-- From a successful neighbor listing, extract the way, the position at
which the queried node occurs in it, and the direction (next or previous
position) that produced the neighbor. -/
theorem mem_of_neighbors {d : MapData} (hpre : d.node_to_way = _preprocessData d.ways)
    {a b : ℕ} {la : List ℕ} (ha : _neighbors d a = some la) (hb : b ∈ la) :
    ∃ w i way, d.ways.get? w = some way ∧ way.nodes.get? i = some a ∧
      ((i + 1 < way.nodes.length ∧ way.nodes.get? (i + 1) = some b) ∨
       (i ≠ 0 ∧ way.nodes.get? (i - 1) = some b)) := by
  unfold _neighbors at ha
  cases hm : d.node_to_way a with
  | none =>
    rw [hm] at ha
    simp at ha
  | some entries =>
    rw [hm] at ha
    simp only [Option.map_some', Option.some.injEq] at ha
    subst ha
    unfold neighborsOfEntries at hb
    rw [mem_neighborsFold] at hb
    rcases hb with hb | ⟨e, he, hhit⟩
    · simp at hb
    · have hepre : (e.1, e.2) ∈ ((_preprocessData d.ways a).getD []) := by
        rw [hpre] at hm
        rw [hm]
        simpa using he
      obtain ⟨way, hw, hi⟩ := (preprocess_mem_iff d.ways a e.1 e.2).mp hepre
      have hway : d.ways.getD e.1 ⟨[], []⟩ = way := getD_of_get? _ hw
      rw [hway] at hhit
      have hilen : e.2 < way.nodes.length := by
        rcases List.get?_eq_some.mp hi with ⟨hl, _⟩
        exact hl
      rcases hhit with ⟨hne, hgb⟩ | ⟨hne, hgb⟩
      · have hlt : e.2 + 1 < way.nodes.length := by omega
        exact ⟨e.1, e.2, way, hw, hi,
          Or.inl ⟨hlt, by rw [get?_eq_getD_of_lt 0 hlt, hgb]⟩⟩
      · have hlt : e.2 - 1 < way.nodes.length := by omega
        exact ⟨e.1, e.2, way, hw, hi,
          Or.inr ⟨hne, by rw [get?_eq_getD_of_lt 0 hlt, hgb]⟩⟩

/-- C5: for a graph whose adjacency index was built by `_preprocessData`
from its ways, the neighbor relation is symmetric: if `b` is listed among
the neighbors of `a`, then the neighbor lookup of `b` succeeds and lists
`a`. -/
theorem C5_neighbors_symm (d : MapData) (hpre : d.node_to_way = _preprocessData d.ways)
    (a b : ℕ) (la : List ℕ) (ha : _neighbors d a = some la) (hb : b ∈ la) :
    ∃ lb, _neighbors d b = some lb ∧ a ∈ lb := by
  obtain ⟨w, i, way, hw, hi, hdir⟩ := mem_of_neighbors hpre ha hb
  have hway : d.ways.getD w ⟨[], []⟩ = way := getD_of_get? _ hw
  have hilen : i < way.nodes.length := by
    rcases List.get?_eq_some.mp hi with ⟨hl, _⟩
    exact hl
  rcases hdir with ⟨hlt, hgb⟩ | ⟨hne, hgb⟩
  · have hmem : (w, i + 1) ∈ ((_preprocessData d.ways b).getD []) :=
      (preprocess_mem_iff d.ways b w (i + 1)).mpr ⟨way, hw, hgb⟩
    cases hpb : _preprocessData d.ways b with
    | none =>
      rw [hpb] at hmem
      simp at hmem
    | some eb =>
      refine ⟨neighborsOfEntries d eb, neighbors_eq_of_entries (by rw [hpre, hpb]), ?_⟩
      unfold neighborsOfEntries
      rw [mem_neighborsFold]
      refine Or.inr ⟨(w, i + 1), by rw [hpb] at hmem; simpa using hmem,
        Or.inr ⟨by omega, ?_⟩⟩
      show a = (d.ways.getD w ⟨[], []⟩).nodes.getD (i + 1 - 1) 0
      rw [hway, show i + 1 - 1 = i by omega]
      exact (getD_of_get? 0 hi).symm
  · have hmem : (w, i - 1) ∈ ((_preprocessData d.ways b).getD []) :=
      (preprocess_mem_iff d.ways b w (i - 1)).mpr ⟨way, hw, hgb⟩
    cases hpb : _preprocessData d.ways b with
    | none =>
      rw [hpb] at hmem
      simp at hmem
    | some eb =>
      refine ⟨neighborsOfEntries d eb, neighbors_eq_of_entries (by rw [hpre, hpb]), ?_⟩
      unfold neighborsOfEntries
      rw [mem_neighborsFold]
      refine Or.inr ⟨(w, i - 1), by rw [hpb] at hmem; simpa using hmem,
        Or.inl ⟨?_, ?_⟩⟩
      · show i - 1 + 1 ≠ (d.ways.getD w ⟨[], []⟩).nodes.length
        rw [hway]
        omega
      · show a = (d.ways.getD w ⟨[], []⟩).nodes.getD (i - 1 + 1) 0
        rw [hway, show i - 1 + 1 = i by omega]
        exact (getD_of_get? 0 hi).symm

/-- C5 witness: on the concrete two-way graph, node 1 is a neighbor of node
0, and the symmetry theorem yields node 0 among the neighbors of node 1. -/
theorem C5_neighbors_symm_witness : ∃ lb, _neighbors testData 1 = some lb ∧ 0 ∈ lb :=
  C5_neighbors_symm testData rfl 0 1 [1] (by decide) (by decide)

/-- C6 (counterexample): for a node id that occurs in no way, `_neighbors`
does not return an empty neighbor set: its adjacency slot is an unassigned
hole, and iterating it faults (the outer `none`), contradicting the claim
that the call evaluates without fault to an empty set. -/
theorem C6_neighbors_missing_counterexample :
    _neighbors lonelyData 0 = none ∧ _neighbors lonelyData 0 ≠ some [] := by decide

/-- C6 (amended): for every graph whose adjacency index was built by
`_preprocessData` and every node id occurring in no way, the `_neighbors`
lookup faults (models the JS `TypeError` from iterating `undefined`) instead
of returning an empty neighbor set. -/
theorem C6_neighbors_missing_faults (d : MapData)
    (hpre : d.node_to_way = _preprocessData d.ways) (node_id : ℕ)
    (h : ∀ w ∈ d.ways, node_id ∉ w.nodes) : _neighbors d node_id = none := by
  unfold _neighbors
  rw [hpre, (preprocess_eq_none_iff d.ways node_id).mpr h]
  rfl

/-- C6 witness: the amended theorem applied to the concrete dataset with an
isolated node. -/
theorem C6_neighbors_missing_witness : _neighbors lonelyData 0 = none :=
  C6_neighbors_missing_faults lonelyData rfl 0 (by simp [lonelyData])

/-! ### Open-set insertion (C1) and planner outcome claims -/

/-- C1: evidence that `_insertIntoOpenSet` violates its specification.  On an
empty open set the missing early return makes the push *and* the splice both
insert the value, leaving two occurrences; and on the sorted set `[0]` with
f-scores `f 0 = 0`, inserting a value with f-score 1 splices at `last_less = 0`,
producing `[1, 0]`, whose f-scores 1, 0 are not ascending. -/
theorem C1_insert_bug_eval :
    _insertIntoOpenSet ([] : List ℕ) (fun _ => (0 : ℤ)) 5 = [5, 5] ∧
    _insertIntoOpenSet [0] (fun n => (n : ℤ)) 1 = [1, 0] := by decide

/-- C10: when either RoadPosition is null, `_planRoute` returns null, for
every graph, distance function, mode and budget — the quantification over
all of these captures that the guard fires before the graph is read or any
search state is created. -/
theorem C10_null_guard {β : Type} [LinearOrder β] [Add β] [Zero β] (d : MapData)
    (dist : Node → Node → β) (debug_paths : Bool) (max_attempts : ℕ) :
    (∀ e : Option (ℕ × ℕ × ℚ), _planRoute d dist none e debug_paths max_attempts = some none) ∧
    (∀ s : Option (ℕ × ℕ × ℚ), _planRoute d dist s none debug_paths max_attempts = some none) := by
  constructor
  · intro e
    cases e <;> rfl
  · intro s
    cases s <;> rfl

/-- Evaluation: planning 0→1 on the test graph with budget 1 stops on the
budget (the single allowed expansion pops node 0) and returns null. -/
theorem planRun_budget1 :
    _planRoute testData distZ (some (0, 0, 0)) (some (0, 1, 0)) false 1 = some none := by
  decide

/-- Evaluation: the same query with budget 3 finds the path, returned
target-first. -/
theorem planRun_budget3 :
    _planRoute testData distZ (some (0, 0, 0)) (some (0, 1, 0)) false 3 =
      some (some [_nodeIdToLongLat testData 1, _nodeIdToLongLat testData 0]) := rfl

/-- Evaluation: planning 0→2 (disconnected components) exhausts the open set
well under budget 10 and returns null. -/
theorem planRun_nopath :
    _planRoute testData distZ (some (0, 0, 0)) (some (1, 0, 0)) false 10 = some none := by
  decide

/-- C3 (counterexample): in SHORTEST mode the budget-exceeded outcome and the
open-set-exhausted outcome are the *same* value (`null`): the 0→1 query at
budget 1 aborts on the budget (budget 3 shows the path exists) and returns
null, and the 0→2 query exhausts its open set and also returns null, so a
SHORTEST-mode caller cannot distinguish "gave up" from "no path". -/
theorem C3_budget_vs_nopath_counterexample :
    (_planRoute testData distZ (some (0, 0, 0)) (some (0, 1, 0)) false 1 = some none ∧
     _planRoute testData distZ (some (0, 0, 0)) (some (0, 1, 0)) false 3 =
       some (some [_nodeIdToLongLat testData 1, _nodeIdToLongLat testData 0])) ∧
    _planRoute testData distZ (some (0, 0, 0)) (some (1, 0, 0)) false 10 = some none :=
  ⟨⟨planRun_budget1, planRun_budget3⟩, planRun_nopath⟩

/-- C3 (amended): in SHORTEST mode both abort outcomes are reported as the
same null value: a search whose budget has run out (fuel 0 with any
remaining open set) returns null, and a search whose open set is empty
returns null at any remaining budget. -/
theorem C3_shortest_abort_null {β : Type} [LinearOrder β] [Add β] (d : MapData)
    (dist : Node → Node → β) (end_node : ℕ) (st : SearchState β) (fuel : ℕ) :
    planLoop d dist end_node false 0 st = some none ∧
    planLoop d dist end_node false fuel { st with open_set := [] } = some none := by
  constructor
  · rfl
  · cases fuel <;> rfl

/-- Increasing the fuel of a SHORTEST-mode search loop that returned a path
does not change its result: the loop's execution is budget-independent until
it returns. -/
theorem planLoop_budget_mono {β : Type} [LinearOrder β] [Add β] (d : MapData)
    (dist : Node → Node → β) (e : ℕ) :
    ∀ (fuel fuel' : ℕ) (st : SearchState β) (p : List (ℚ × ℚ)), fuel ≤ fuel' →
      planLoop d dist e false fuel st = some (some p) →
      planLoop d dist e false fuel' st = some (some p)
  | 0, fuel', st, p => by
    intro hle h
    simp [planLoop] at h
  | fuel + 1, fuel', st, p => by
    intro hle h
    cases fuel' with
    | zero => omega
    | succ fuel'' =>
      rcases hos : st.open_set with _ | ⟨item, rest⟩ <;>
        simp only [planLoop, hos] at h ⊢
      · simp at h
      · by_cases hitem : item = e
      
        · rw [if_pos hitem] at h ⊢
          exact h
        · rw [if_neg hitem] at h ⊢
          cases hnb : _neighbors d item with
          | none =>
            rw [hnb] at h
            exact Option.noConfusion (show (none : Option JSVal) = some (some p) from h)
          | some nbrs =>
            rw [hnb] at h
            exact planLoop_budget_mono d dist e fuel fuel'' _ p (by omega) h

/-- C7: for a fixed graph, start, end and SHORTEST mode, if planning with
budget `b` returns a path then planning with any budget `b' ≥ b` returns the
*same* path (so in particular still a path, never null, and its total length
— under any length measure — is not larger). -/
theorem C7_budget_monotone {β : Type} [LinearOrder β] [Add β] [Zero β] (d : MapData)
    (dist : Node → Node → β) (s e : ℕ × ℕ × ℚ) (b b' : ℕ) (p : List (ℚ × ℚ))
    (hb : b ≤ b') (hp : _planRoute d dist (some s) (some e) false b = some (some p)) :
    _planRoute d dist (some s) (some e) false b' = some (some p) := by
  simp only [_planRoute] at hp ⊢
  exact planLoop_budget_mono d dist _ b b' _ p hb hp

/-- C7 witness: the budget-3 path of the concrete run is still returned,
unchanged, at budget 5. -/
theorem C7_budget_monotone_witness :
    _planRoute testData distZ (some (0, 0, 0)) (some (0, 1, 0)) false 5 =
      some (some [_nodeIdToLongLat testData 1, _nodeIdToLongLat testData 0]) :=
  C7_budget_monotone testData distZ (0, 0, 0) (0, 1, 0) 3 5
    [_nodeIdToLongLat testData 1, _nodeIdToLongLat testData 0] (by omega) planRun_budget3

/-! ### Spiral search (C9) -/

/-- Concrete pixel buffer for the C9 witness: only the sample at window
position (0, 0) (buffer index 0) holds a way id. -/
def pix1 : ℕ → ℤ := fun idx => if idx = 0 then 7 else -1

/-- Decidable check of the per-ring facts of the spiral probe lists. -/
theorem ringProbes_facts_aux :
    ∀ dist ∈ List.range 6,
      (∀ p ∈ ringProbes dist, chebDist p.1 p.2 = dist ∧ p.1 ≤ 10 ∧ p.2 ≤ 10) ∧
      (∀ x ∈ List.range 11, ∀ y ∈ List.range 11,
        chebDist x y = dist → (x, y) ∈ ringProbes dist) := by decide

theorem ringProbes_facts :
    ∀ dist < 6, (∀ p ∈ ringProbes dist, chebDist p.1 p.2 = dist ∧ p.1 ≤ 10 ∧ p.2 ≤ 10) ∧
      (∀ x ≤ 10, ∀ y ≤ 10, chebDist x y = dist → (x, y) ∈ ringProbes dist) := by
  intro dist hd
  have h := ringProbes_facts_aux dist (List.mem_range.mpr hd)
  exact ⟨h.1, fun x hx y hy => h.2 x (List.mem_range.mpr (by omega)) y
    (List.mem_range.mpr (by omega))⟩

theorem window_cheb_lt_aux :
    ∀ x ∈ List.range 11, ∀ y ∈ List.range 11, chebDist x y < 6 := by decide

theorem window_cheb_lt : ∀ x ≤ 10, ∀ y ≤ 10, chebDist x y < 6 := by
  intro x hx y hy
  exact window_cheb_lt_aux x (List.mem_range.mpr (by omega)) y (List.mem_range.mpr (by omega))

theorem find?_append_cases {α : Type} (pr : α → Bool) :
    ∀ (l₁ l₂ : List α), (l₁ ++ l₂).find? pr =
      match l₁.find? pr with
      | some a => some a
      | none => l₂.find? pr
  | [], l₂ => by simp
  | x :: l₁, l₂ => by
    by_cases hx : pr x
    · simp [List.find?_cons_of_pos _ hx]
    · rw [List.cons_append, List.find?_cons_of_neg _ hx, List.find?_cons_of_neg _ hx,
        find?_append_cases pr l₁ l₂]

theorem find?_range_flatMap {α : Type} (f : ℕ → List α) (pr : α → Bool) :
    ∀ (n : ℕ) (a : α), ((List.range n).flatMap f).find? pr = some a →
      ∃ dd, dd < n ∧ a ∈ f dd ∧ pr a = true ∧ ∀ e < dd, ∀ b ∈ f e, pr b = false
  | 0, a => by
    intro h
    simp at h
  | n + 1, a => by
    intro h
    rw [List.range_succ, List.flatMap_append, find?_append_cases] at h
    cases hf1 : ((List.range n).flatMap f).find? pr with
    | some a1 =>
      rw [hf1] at h
      simp only [Option.some.injEq] at h
      subst h
      obtain ⟨dd, hdd, hmem, hpr, hbef⟩ := find?_range_flatMap f pr n a1 hf1
      exact ⟨dd, by omega, hmem, hpr, hbef⟩
    | none =>
      rw [hf1] at h
      simp only [List.flatMap_cons, List.flatMap_nil, List.append_nil] at h
      refine ⟨n, by omega, List.mem_of_find?_eq_some h, List.find?_some h, ?_⟩
      intro e he b hb
      have := List.find?_eq_none.mp hf1 b
        (List.mem_flatMap.mpr ⟨e, List.mem_range.mpr he, hb⟩)
      simpa using this

theorem C9_spiral_search (pixels : ℕ → ℤ) :
    (_spiralSearchWayId pixels = -1 ↔ ∀ x ≤ 10, ∀ y ≤ 10, _pixelFromBuffer pixels x y = -1) ∧
    (_spiralSearchWayId pixels ≠ -1 →
      ∃ x y, x ≤ 10 ∧ y ≤ 10 ∧ _pixelFromBuffer pixels x y = _spiralSearchWayId pixels ∧
        ∀ u v, u ≤ 10 → v ≤ 10 → _pixelFromBuffer pixels u v ≠ -1 →
          chebDist x y ≤ chebDist u v) := by
  have hfacts := ringProbes_facts
  have hmemwin : ∀ x ≤ 10, ∀ y ≤ 10, (x, y) ∈ spiralProbes := by
    intro x hx y hy
    have hd := window_cheb_lt x hx y hy
    exact List.mem_flatMap.mpr ⟨chebDist x y, List.mem_range.mpr hd,
      (hfacts (chebDist x y) hd).2 x hx y hy rfl⟩
  have hprobewin : ∀ p ∈ spiralProbes, p.1 ≤ 10 ∧ p.2 ≤ 10 := by
    intro p hp
    rcases List.mem_flatMap.mp hp with ⟨dd, hdd, hpd⟩
    exact ((hfacts dd (List.mem_range.mp hdd)).1 p hpd).2
  unfold _spiralSearchWayId
  cases hf : spiralProbes.find? (fun p => decide (_pixelFromBuffer pixels p.1 p.2 ≠ -1)) with
  | none =>
    have hall := List.find?_eq_none.mp hf
    constructor
    · constructor
      · intro _ x hx y hy
        have := hall (x, y) (hmemwin x hx y hy)
        simpa using this
      · intro _
        rfl
    · intro hne
      exact absurd rfl hne
  | some q =>
    have hqpred : _pixelFromBuffer pixels q.1 q.2 ≠ -1 := by
      have := List.find?_some hf
      simpa using this
    constructor
    · constructor
      · intro h
        exact absurd h hqpred
      · intro hall
        exfalso
        exact hqpred (hall q.1 (hprobewin q (List.mem_of_find?_eq_some hf)).1
          q.2 (hprobewin q (List.mem_of_find?_eq_some hf)).2)
    · intro _
      obtain ⟨dd, hdd6, hqring, _, hbefore⟩ :=
        find?_range_flatMap ringProbes _ 6 q hf
      have hqw := (hfacts dd hdd6).1 q hqring
      refine ⟨q.1, q.2, hqw.2.1, hqw.2.2, rfl, ?_⟩
      intro u v hu hv hne
      by_contra hlt
      push_neg at hlt
      rw [hqw.1] at hlt
      have hduv : (u, v) ∈ ringProbes (chebDist u v) :=
        (hfacts _ (by omega)).2 u hu v hv rfl
      have := hbefore (chebDist u v) (by omega) (u, v) hduv
      simp at this
      exact hne this

/-- C9 witness: on the buffer with a single way id at sample (0, 0), the
spiral search returns a non-NONE id, and the theorem locates a sample of
minimal Chebyshev ring distance carrying it. -/
theorem C9_spiral_search_witness :
    ∃ x y, x ≤ 10 ∧ y ≤ 10 ∧
      _pixelFromBuffer pix1 x y = _spiralSearchWayId pix1 ∧
      ∀ u v, u ≤ 10 → v ≤ 10 → _pixelFromBuffer pix1 u v ≠ -1 →
        chebDist x y ≤ chebDist u v :=
  (C9_spiral_search pix1).2 (by decide)

/-! ### Locator refinement round-trip (C8) -/

/-- A squared sample distance is nonnegative. -/
theorem sampleDist2_nonneg (d : MapData) (wn : List ℕ) (long lat : ℚ) (p : ℕ × ℚ) :
    0 ≤ sampleDist2 d wn long lat p := by
  unfold sampleDist2
  exact add_nonneg (mul_self_nonneg _) (mul_self_nonneg _)

/-- A sample at squared distance zero interpolates exactly to the query
point, coordinate by coordinate. -/
theorem sampleDist2_eq_zero {d : MapData} {wn : List ℕ} {long lat : ℚ} {p : ℕ × ℚ}
    (h : sampleDist2 d wn long lat p = 0) :
    ((_nodeToLongLat (d.nodes.getD (wn.getD (p.1 + 1) 0) default)).1 -
      (_nodeToLongLat (d.nodes.getD (wn.getD p.1 0) default)).1) * p.2 +
      (_nodeToLongLat (d.nodes.getD (wn.getD p.1 0) default)).1 = long ∧
    ((_nodeToLongLat (d.nodes.getD (wn.getD (p.1 + 1) 0) default)).2 -
      (_nodeToLongLat (d.nodes.getD (wn.getD p.1 0) default)).2) * p.2 +
      (_nodeToLongLat (d.nodes.getD (wn.getD p.1 0) default)).2 = lat := by
  unfold sampleDist2 at h
  set A := ((_nodeToLongLat (d.nodes.getD (wn.getD (p.1 + 1) 0) default)).1 -
      (_nodeToLongLat (d.nodes.getD (wn.getD p.1 0) default)).1) * p.2 +
      (_nodeToLongLat (d.nodes.getD (wn.getD p.1 0) default)).1 - long with hA
  set B := ((_nodeToLongLat (d.nodes.getD (wn.getD (p.1 + 1) 0) default)).2 -
      (_nodeToLongLat (d.nodes.getD (wn.getD p.1 0) default)).2) * p.2 +
      (_nodeToLongLat (d.nodes.getD (wn.getD p.1 0) default)).2 - lat with hB
  have hAB : A * A + B * B = 0 := h
  have hA0 : A * A = 0 :=
    le_antisymm (by nlinarith [mul_self_nonneg B]) (mul_self_nonneg A)
  have hB0 : B * B = 0 := by linarith
  constructor
  · have := mul_self_eq_zero.mp hA0
    rw [hA] at this
    linarith
  · have := mul_self_eq_zero.mp hB0
    rw [hB] at this
    linarith

/-- Specification of the running strict minimum: the fold returns the value
and key of one of the visited samples (or the seed), the key is minimal over
everything visited, and earlier samples win ties. -/
theorem runMin_spec {α : Type} (key : α → ℚ) :
    ∀ (l : List α) (m0 : ℚ) (q0 : α),
      ∃ m q, l.foldl (runMinStep key) (some (m0, q0)) = some (m, q) ∧
        ((m = m0 ∧ q = q0) ∨ (q ∈ l ∧ m = key q)) ∧ m ≤ m0 ∧ ∀ p ∈ l, m ≤ key p
  | [], m0, q0 => ⟨m0, q0, rfl, Or.inl ⟨rfl, rfl⟩, le_refl _, by simp⟩
  | p :: l, m0, q0 => by
    rw [List.foldl_cons]
    by_cases h : key p < m0
    · have hstep : runMinStep key (some (m0, q0)) p = some (key p, p) := by
        simp [runMinStep, h]
      rw [hstep]
      obtain ⟨m, q, heq, hor, hle, hall⟩ := runMin_spec key l (key p) p
      refine ⟨m, q, heq, ?_, by linarith, ?_⟩
      · rcases hor with ⟨h1, h2⟩ | ⟨h1, h2⟩
        · exact Or.inr ⟨by rw [h2]; exact List.mem_cons_self p l, by rw [h1, h2]⟩
        · exact Or.inr ⟨List.mem_cons_of_mem _ h1, h2⟩
      · intro r hr
        rcases List.mem_cons.mp hr with hr | hr
        · rw [hr]
          exact hle
        · exact hall r hr
    · have hstep : runMinStep key (some (m0, q0)) p = some (m0, q0) := by
        simp [runMinStep, h]
      rw [hstep]
      obtain ⟨m, q, heq, hor, hle, hall⟩ := runMin_spec key l m0 q0
      refine ⟨m, q, heq, ?_, hle, ?_⟩
      · rcases hor with ⟨h1, h2⟩ | ⟨h1, h2⟩
        · exact Or.inl ⟨h1, h2⟩
        · exact Or.inr ⟨List.mem_cons_of_mem _ h1, h2⟩
      · intro r hr
        rcases List.mem_cons.mp hr with hr | hr
        · rw [hr]
          push_neg at h
          linarith
        · exact hall r hr

/-- The running minimum over a nonempty list returns a visited sample whose
key is minimal over the whole list. -/
theorem runMin_full {α : Type} (key : α → ℚ) (l : List α) (z : α) (hz : z ∈ l) :
    ∃ m q, l.foldl (runMinStep key) none = some (m, q) ∧
      q ∈ l ∧ m = key q ∧ ∀ p ∈ l, m ≤ key p := by
  cases l with
  | nil => simp at hz
  | cons p0 rest =>
    obtain ⟨m, q, heq, hor, hle, hall⟩ := runMin_spec key rest (key p0) p0
    refine ⟨m, q, ?_, ?_, ?_, ?_⟩
    · show rest.foldl (runMinStep key) (some (key p0, p0)) = some (m, q)
      exact heq
    · rcases hor with ⟨_, h2⟩ | ⟨h1, _⟩
      · rw [h2]
        exact List.mem_cons_self p0 rest
      · exact List.mem_cons_of_mem _ h1
    · rcases hor with ⟨h1, h2⟩ | ⟨_, h2⟩
      · rw [h1, h2]
      · exact h2
    · intro p hp2
      rcases List.mem_cons.mp hp2 with hh | hh
      · rw [hh]
        exact hle
      · exact hall p hh

/-- C8: locating a point whose coordinates equal a known node's coordinate
round-trips.  For every way that contains the node (with at least two nodes,
and whichever way id the oracle reported), the refinement step returns a
segment index and factor whose interpolation — as resolved by
`_wayPositionToLongLat` — is exactly the node's coordinate. -/
theorem C8_locate_roundtrip (d : MapData) (wid j n : ℕ) (way : Way) (node : Node)
    (hw : d.ways.get? wid = some way) (hlen : 2 ≤ way.nodes.length)
    (hj : way.nodes.get? j = some n) (hn : d.nodes.get? n = some node) :
    ∃ seg f,
      _findWayPosition d (wid : ℤ) (_nodeToLongLat node).1 (_nodeToLongLat node).2 =
        some (seg, f) ∧
      _wayPositionToLongLat d (wid, seg, f) = _nodeToLongLat node := by
  have hne : ((wid : ℤ) ≠ -1) := by omega
  have htn : (wid : ℤ).toNat = wid := Int.toNat_natCast wid
  have hgd : d.ways.getD (wid : ℤ).toNat ⟨[], []⟩ = way := by
    rw [htn]
    exact getD_of_get? _ hw
  have hjlen : j < way.nodes.length := by
    rcases List.get?_eq_some.mp hj with ⟨hl, _⟩
    exact hl
  have hjn : way.nodes.getD j 0 = n := getD_of_get? _ hj
  have hnd : d.nodes.getD n default = node := getD_of_get? _ hn
  have hzero : ∃ z ∈ (List.range (way.nodes.length - 1)).flatMap
      (fun seg => (List.range 11).map (fun k : ℕ => (seg, (k : ℚ) / 10))),
      sampleDist2 d way.nodes (_nodeToLongLat node).1 (_nodeToLongLat node).2 z = 0 := by
    by_cases hcase : j < way.nodes.length - 1
    · refine ⟨(j, ((0 : ℕ) : ℚ) / 10), ?_, ?_⟩
      · have hjr : j ∈ List.range (way.nodes.length - 1) := List.mem_range.mpr hcase
        have h0r : (0 : ℕ) ∈ List.range 11 := by decide
        exact List.mem_flatMap.mpr ⟨j, hjr, List.mem_map.mpr ⟨0, h0r, rfl⟩⟩
      · unfold sampleDist2
        simp only [hjn, hnd]
        push_cast
        ring
    · have hj1 : j = way.nodes.length - 1 := by omega
      refine ⟨(j - 1, ((10 : ℕ) : ℚ) / 10), ?_, ?_⟩
      · have hjr : j - 1 ∈ List.range (way.nodes.length - 1) :=
          List.mem_range.mpr (by omega)
        have h10r : (10 : ℕ) ∈ List.range 11 := by decide
        exact List.mem_flatMap.mpr ⟨j - 1, hjr, List.mem_map.mpr ⟨10, h10r, rfl⟩⟩
      · unfold sampleDist2
        have hstep : j - 1 + 1 = j := by omega
        simp only [hstep, hjn, hnd]
        push_cast
        ring
  obtain ⟨z, hzmem, hz0⟩ := hzero
  obtain ⟨m, q, heq, hqmem, hmq, hmin⟩ :=
    runMin_full (sampleDist2 d way.nodes (_nodeToLongLat node).1 (_nodeToLongLat node).2)
      _ z hzmem
  have hm0 : m = 0 := by
    have hle0 : m ≤ 0 := by
      have := hmin z hzmem
      rw [hz0] at this
      exact this
    exact le_antisymm hle0 (hmq ▸ sampleDist2_nonneg d way.nodes _ _ q)
  have hkq : sampleDist2 d way.nodes (_nodeToLongLat node).1 (_nodeToLongLat node).2 q = 0 := by
    rw [← hmq, hm0]
  refine ⟨q.1, q.2, ?_, ?_⟩
  · unfold _findWayPosition
    rw [if_neg hne, hgd]
    show Option.map (fun x => x.2)
        (List.foldl (runMinStep (sampleDist2 d way.nodes (_nodeToLongLat node).1
          (_nodeToLongLat node).2)) none
        ((List.range (way.nodes.length - 1)).flatMap
          (fun seg => (List.range 11).map (fun k : ℕ => (seg, (k : ℚ) / 10))))) =
      some (q.1, q.2)
    rw [heq]
    rfl
  · obtain ⟨h1, h2⟩ := sampleDist2_eq_zero hkq
    have hway2 : d.ways.getD wid ⟨[], []⟩ = way := getD_of_get? _ hw
    unfold _wayPositionToLongLat
    simp only [hway2]
    simp only [_nodeToLongLat] at h1 h2 ⊢
    simp only [Prod.mk.injEq]
    constructor
    · rw [← h1]
      ring
    · rw [← h2]
      ring

/-- C8 witness: locating the exact coordinate of node 0 on way 0 of the test
graph round-trips through `_wayPositionToLongLat`. -/
theorem C8_locate_roundtrip_witness :
    ∃ seg f,
      _findWayPosition testData ((0 : ℕ) : ℤ)
        (_nodeToLongLat ⟨0, 0⟩).1 (_nodeToLongLat ⟨0, 0⟩).2 = some (seg, f) ∧
      _wayPositionToLongLat testData (0, seg, f) = _nodeToLongLat ⟨0, 0⟩ :=
  C8_locate_roundtrip testData 0 0 0 ⟨[0, 1], []⟩ ⟨0, 0⟩
    (by decide) (by decide) (by decide) (by decide)

/-! ### The distance function (C2) -/

/-- `_distance` written with squares, for calculation. -/
theorem distance_eval (n1 n2 : Node) :
    _distance n1 n2 = Real.sqrt (
      (((n2.long : ℝ) - (n1.long : ℝ)) *
        Real.cos ((n2.lat : ℝ) / 10000000 * 3.1415962 / 180) / 10000000) ^ 2 +
      (((n2.lat : ℝ) - (n1.lat : ℝ)) / 10000000) ^ 2) := by
  unfold _distance
  ring_nf

/-- The cosine of (the real cast of) a rational is never zero: a zero would
exhibit π as a rational multiple of a rational. -/
theorem cos_rat_ne_zero (r : ℚ) : Real.cos (r : ℝ) ≠ 0 := by
  intro h
  rcases Real.cos_eq_zero_iff.mp h with ⟨k, hk⟩
  have hk0 : (2 * (k : ℝ) + 1) ≠ 0 := by
    have hz : (2 * k + 1 : ℤ) ≠ 0 := by omega
    have hcast : ((2 * k + 1 : ℤ) : ℝ) ≠ 0 := Int.cast_ne_zero.mpr hz
    push_cast at hcast
    exact hcast
  have hpi : ((2 * r / (2 * (k : ℚ) + 1) : ℚ) : ℝ) = Real.pi := by
    push_cast
    rw [hk]
    field_simp
  exact irrational_pi ⟨(2 * r / (2 * (k : ℚ) + 1) : ℚ), hpi⟩

/-- The sine of (the real cast of) a nonzero rational is never zero. -/
theorem sin_rat_ne_zero (r : ℚ) (hr : r ≠ 0) : Real.sin (r : ℝ) ≠ 0 := by
  intro h
  rcases Real.sin_eq_zero_iff.mp h with ⟨n, hn⟩
  by_cases hz : n = 0
  · rw [hz] at hn
    push_cast at hn
    rw [zero_mul] at hn
    exact hr (by exact_mod_cast hn.symm)
  · have hnr : ((n : ℤ) : ℝ) ≠ 0 := Int.cast_ne_zero.mpr hz
    have hpi : ((r / (n : ℚ) : ℚ) : ℝ) = Real.pi := by
      push_cast
      rw [← hn]
      field_simp
    exact irrational_pi ⟨(r / (n : ℚ) : ℚ), hpi⟩

/-- The latitude-dependent angle fed to `Math.cos` is the cast of a
rational. -/
theorem distance_angle_rat (L : ℤ) :
    (L : ℝ) / 10000000 * 3.1415962 / 180 =
      (((L : ℚ) * 31415962 / 18000000000000000 : ℚ) : ℝ) := by
  rw [show (3.1415962 : ℝ) = 31415962 / 10000000 by norm_num]
  push_cast
  ring

/-- C2 (counterexample): `_distance` is not symmetric, because the longitude
delta is scaled by the cosine of the *second* argument's latitude.  For the
nodes (long 1°, lat 45°) and (long 0°, lat 0°) the two orders give
√(cos²θ + 45²) and √(1 + 45²) with cos²θ < 1. -/
theorem C2_distance_not_symmetric :
    _distance ⟨0, 0⟩ ⟨10000000, 450000000⟩ ≠ _distance ⟨10000000, 450000000⟩ ⟨0, 0⟩ := by
  have hθ : ((450000000 : ℤ) : ℝ) / 10000000 * 3.1415962 / 180 =
      ((31415962 / 40000000 : ℚ) : ℝ) := by
    rw [distance_angle_rat]
    norm_num
  have hsin : Real.sin ((31415962 / 40000000 : ℚ) : ℝ) ≠ 0 :=
    sin_rat_ne_zero _ (by norm_num)
  have hcos2 : Real.cos ((31415962 / 40000000 : ℚ) : ℝ) ^ 2 < 1 := by
    nlinarith [Real.sin_sq_add_cos_sq ((31415962 / 40000000 : ℚ) : ℝ),
      mul_self_pos.mpr hsin]
  apply ne_of_lt
  rw [distance_eval, distance_eval]
  simp only []
  rw [show ((⟨10000000, 450000000⟩ : Node).lat : ℝ) = ((450000000 : ℤ) : ℝ) from rfl,
    show ((⟨10000000, 450000000⟩ : Node).long : ℝ) = ((10000000 : ℤ) : ℝ) from rfl,
    show ((⟨0, 0⟩ : Node).lat : ℝ) = ((0 : ℤ) : ℝ) from rfl,
    show ((⟨0, 0⟩ : Node).long : ℝ) = ((0 : ℤ) : ℝ) from rfl, hθ]
  rw [show ((0 : ℤ) : ℝ) / 10000000 * 3.1415962 / 180 = 0 by norm_num, Real.cos_zero]
  apply Real.sqrt_lt_sqrt (by positivity)
  push_cast
  nlinarith [hcos2]

/-- C2 (amended): `_distance a b` is zero iff the two nodes carry the same
coordinates; and symmetry holds in the restricted cases where the nodes
share a latitude or share a longitude.  (Unrestricted symmetry is refuted by
`C2_distance_not_symmetric`: the longitude delta is scaled by the cosine of
the second argument's latitude.) -/
theorem C2_distance_zero_iff_and_partial_symm (a b : Node) :
    (_distance a b = 0 ↔ a.long = b.long ∧ a.lat = b.lat) ∧
    (a.lat = b.lat ∨ a.long = b.long → _distance a b = _distance b a) := by
  constructor
  · rw [distance_eval]
    set u : ℝ := ((b.long : ℝ) - (a.long : ℝ)) *
      Real.cos ((b.lat : ℝ) / 10000000 * 3.1415962 / 180) / 10000000 with hu_def
    set v : ℝ := ((b.lat : ℝ) - (a.lat : ℝ)) / 10000000 with hv_def
    constructor
    · intro h
      have hsum : u ^ 2 + v ^ 2 ≤ 0 := Real.sqrt_eq_zero'.mp h
      have hu2 : u ^ 2 = 0 :=
        le_antisymm (by nlinarith [sq_nonneg v]) (sq_nonneg u)
      have hv2 : v ^ 2 = 0 :=
        le_antisymm (by nlinarith [sq_nonneg u]) (sq_nonneg v)
      have hu0 : u = 0 := sq_eq_zero_iff.mp hu2
      have hv0 : v = 0 := sq_eq_zero_iff.mp hv2
      constructor
      · rw [hu_def] at hu0
        have hcos : Real.cos ((b.lat : ℝ) / 10000000 * 3.1415962 / 180) ≠ 0 := by
          rw [distance_angle_rat]
          exact cos_rat_ne_zero _
        have hprod : ((b.long : ℝ) - (a.long : ℝ)) *
            Real.cos ((b.lat : ℝ) / 10000000 * 3.1415962 / 180) = 0 := by
          rcases div_eq_zero_iff.mp hu0 with hx | hx
          · exact hx
          · norm_num at hx
        rcases mul_eq_zero.mp hprod with hz | hz
        · have : (a.long : ℝ) = (b.long : ℝ) := by linarith
          exact_mod_cast this
        · exact absurd hz hcos
      · rw [hv_def] at hv0
        have : (a.lat : ℝ) = (b.lat : ℝ) := by
          rcases div_eq_zero_iff.mp hv0 with hx | hx
          · linarith
          · norm_num at hx
        exact_mod_cast this
    · rintro ⟨h1, h2⟩
      rw [hu_def, hv_def, h1, h2]
      norm_num
  · rintro (hl | hg)
    · rw [distance_eval, distance_eval, hl]
      ring_nf
    · rw [distance_eval, distance_eval, hg]
      ring_nf

/-- On two nodes of equal longitude, `_distance` is exactly the integer
test distance `distZ` scaled back from decimicro degrees, which justifies
running the planner's concrete test graphs (all nodes on one meridian) with
`distZ` scores. -/
theorem distance_eq_distZ_of_eq_long (n1 n2 : Node) (h : n1.long = n2.long) :
    _distance n1 n2 = ((distZ n1 n2 : ℤ) : ℝ) / 10000000 := by
  rw [distance_eval, h]
  have h0 : (((n2.long : ℝ) - (n2.long : ℝ)) *
      Real.cos ((n2.lat : ℝ) / 10000000 * 3.1415962 / 180) / 10000000) ^ 2 = 0 := by
    ring_nf
  rw [h0, zero_add, Real.sqrt_sq_eq_abs]
  unfold distZ
  push_cast
  rw [abs_div]
  norm_num

/-- C2 witness: the partial-symmetry case applied to two equal-latitude
nodes. -/
theorem C2_distance_witness :
    _distance ⟨0, 7⟩ ⟨5, 7⟩ = _distance ⟨5, 7⟩ ⟨0, 7⟩ :=
  (C2_distance_zero_iff_and_partial_symm ⟨0, 7⟩ ⟨5, 7⟩).2 (Or.inl rfl)

/-! ### Planner path validity (C4) -/

/-- Way adjacency is symmetric. -/
theorem adjacent_symm {d : MapData} {a b : ℕ} (h : Adjacent d a b) : Adjacent d b a := by
  rcases h with ⟨w, hw, i, hcase⟩
  exact ⟨w, hw, i, hcase.symm⟩

/-- Every listed neighbor of a node is way-adjacent to it. -/
theorem neighbors_adjacent (d : MapData) (hpre : d.node_to_way = _preprocessData d.ways)
    {item : ℕ} {nbrs : List ℕ} (h : _neighbors d item = some nbrs) :
    ∀ n ∈ nbrs, Adjacent d item n := by
  intro n hn
  obtain ⟨w, i, way, hw, hi, hdir⟩ := mem_of_neighbors hpre h hn
  rcases hdir with ⟨_, hb⟩ | ⟨hne, hb⟩
  · exact ⟨way, List.get?_mem hw, i, Or.inl ⟨hi, hb⟩⟩
  · refine ⟨way, List.get?_mem hw, i - 1, Or.inr ⟨hb, ?_⟩⟩
    rw [show i - 1 + 1 = i by omega]
    exact hi

/-- Splicing adds the new value; every member of the result was a member or
is the value. -/
theorem mem_insertIntoOpenSet {γ : Type} [LinearOrder γ] {os : List ℕ} {f : ℕ → γ}
    {v x : ℕ} (h : x ∈ _insertIntoOpenSet os f v) : x ∈ os ∨ x = v := by
  have hsub : ∀ (l : List ℕ) (k : ℕ), x ∈ l.take k ++ [v] ++ l.drop k → x ∈ l ∨ x = v := by
    intro l k hx
    rcases List.mem_append.mp hx with hx1 | hx1
    · rcases List.mem_append.mp hx1 with hx2 | hx2
      · exact Or.inl (List.take_subset _ _ hx2)
      · exact Or.inr (List.mem_singleton.mp hx2)
    · exact Or.inl (List.drop_subset _ _ hx1)
  simp only [_insertIntoOpenSet] at h
  by_cases hlen : os.length = 0
  · rw [if_pos hlen] at h
    rcases hsub _ _ h with h1 | h1
    · rcases List.mem_append.mp h1 with h2 | h2
      · exact Or.inl h2
      · exact Or.inr (List.mem_singleton.mp h2)
    · exact Or.inr h1
  · rw [if_neg hlen] at h
    exact hsub _ _ h

/-- Relaxing one neighbor preserves the planner invariant, provided the
popped item is the start or has a predecessor and is adjacent to the
neighbor. -/
theorem relaxNeighbor_inv {β : Type} [LinearOrder β] [Add β] {d : MapData}
    {dist : Node → Node → β} {e item s : ℕ} {st : SearchState β} {nb : ℕ}
    (hinv : PlanInv d s st) (hitem : item = s ∨ (st.came_from item).isSome)
    (hadj : Adjacent d item nb) :
    PlanInv d s (relaxNeighbor d dist e item st nb) ∧
      (item = s ∨ ((relaxNeighbor d dist e item st nb).came_from item).isSome) := by
  simp only [relaxNeighbor]
  by_cases hc : st.g_score item +
      ((dist (d.nodes.getD item default) (d.nodes.getD nb default) : β) : WithTop β) <
      st.g_score nb
  · rw [if_pos hc]
    have hmono : ∀ x : ℕ, (st.came_from x).isSome →
        (Option.isSome (if x = nb then some item else st.came_from x)) := by
      intro x hx
      by_cases hxn : x = nb <;> simp [hxn, hx]
    constructor
    · constructor
      · intro x hx
        rcases mem_insertIntoOpenSet hx with h1 | h1
        · rcases hinv.1 x h1 with h2 | h2
          · exact Or.inl h2
          · exact Or.inr (hmono x h2)
        · refine Or.inr ?_
          show Option.isSome (if x = nb then some item else st.came_from x) = true
          simp [h1]
      · intro y x hyx
        have hyx2 : (if y = nb then some item else st.came_from y) = some x := hyx
        show Adjacent d x y ∧
          (x = s ∨ Option.isSome (if x = nb then some item else st.came_from x) = true)
        by_cases hyn : y = nb
        · rw [if_pos hyn] at hyx2
          have hx : x = item := by
            simpa using hyx2.symm
          subst hx
          subst hyn
          refine ⟨hadj, ?_⟩
          rcases hitem with h2 | h2
          · exact Or.inl h2
          · exact Or.inr (hmono _ h2)
        · rw [if_neg hyn] at hyx2
          obtain ⟨ha, hb⟩ := hinv.2 y x hyx2
          refine ⟨ha, ?_⟩
          rcases hb with h2 | h2
          · exact Or.inl h2
          · exact Or.inr (hmono _ h2)
    · rcases hitem with h2 | h2
      · exact Or.inl h2
      · exact Or.inr (hmono _ h2)
  · rw [if_neg hc]
    exact ⟨hinv, hitem⟩

/-- The whole neighbor loop preserves the planner invariant. -/
theorem planStepNeighbors_inv {β : Type} [LinearOrder β] [Add β] {d : MapData}
    {dist : Node → Node → β} {e s item : ℕ} :
    ∀ (nbrs : List ℕ) (st : SearchState β),
      (∀ n ∈ nbrs, Adjacent d item n) →
      PlanInv d s st → (item = s ∨ (st.came_from item).isSome) →
      PlanInv d s (planStepNeighbors d dist e item nbrs st)
  | [], st => fun _ hinv _ => hinv
  | nb :: rest, st => by
    intro hadj hinv hitem
    have h1 := @relaxNeighbor_inv β _ _ d dist e item s st nb
      hinv hitem (hadj nb (List.mem_cons_self _ _))
    exact planStepNeighbors_inv rest _
      (fun n hn => hadj n (List.mem_cons_of_mem _ hn)) h1.1 h1.2

/-- A `came_from` chain whose every edge is way-adjacent is an adjacency
chain. -/
theorem cfChain_adjacent (d : MapData) (cf : ℕ → Option ℕ)
    (hcf : ∀ y x, cf y = some x → Adjacent d x y) :
    ∀ l, cfChain cf l → l.Chain' (Adjacent d)
  | [], _ => List.chain'_nil
  | [x], _ => List.chain'_singleton x
  | x :: y :: rest, h => by
    rw [cfChain] at h
    exact List.chain'_cons.mpr ⟨adjacent_symm (hcf x y h.1),
      cfChain_adjacent d cf hcf (y :: rest) h.2⟩

/-- The last node of a maximal `came_from` chain has no predecessor. -/
theorem cfChain_getLast_none (cf : ℕ → Option ℕ) :
    ∀ (l : List ℕ) (z : ℕ), cfChain cf l → l.getLast? = some z → cf z = none
  | [], z => by
    intro _ hz
    simp at hz
  | [x], z => by
    intro h hz
    simp at hz
    rw [← hz]
    exact h
  | x :: y :: rest, z => by
    intro h hz
    rw [cfChain] at h
    exact cfChain_getLast_none cf (y :: rest) z h.2 (by simpa using hz)

/-- The last node of a maximal `came_from` chain is its head or the target
of a `came_from` edge. -/
theorem cfChain_getLast_cases (cf : ℕ → Option ℕ) :
    ∀ (x : ℕ) (ch : List ℕ) (z : ℕ), cfChain cf (x :: ch) →
      (x :: ch).getLast? = some z → z = x ∨ ∃ w, cf w = some z
  | x, [], z => by
    intro _ hz
    simp at hz
    exact Or.inl hz.symm
  | x, y :: rest, z => by
    intro h hz
    rw [cfChain] at h
    rcases cfChain_getLast_cases cf y rest z h.2 (by simpa using hz) with h1 | h1
    · refine Or.inr ⟨x, ?_⟩
      rw [h1]
      exact h.1
    · exact Or.inr h1

/-- What a successful bounded reconstruction returns: the coordinates of a
maximal `came_from` chain starting at the given node, appended to the
accumulator. -/
theorem reconstructLoop_spec (d : MapData) (cf : ℕ → Option ℕ) :
    ∀ (fuel cur : ℕ) (acc p : List (ℚ × ℚ)),
      reconstructLoop d cf fuel cur acc = some p →
      ∃ ch, cfChain cf (cur :: ch) ∧ p = acc ++ ch.map (_nodeIdToLongLat d)
  | 0, cur, acc, p => by
    intro h
    simp [reconstructLoop] at h
  | fuel + 1, cur, acc, p => by
    intro h
    rw [reconstructLoop] at h
    cases hc : cf cur with
    | none =>
      rw [hc] at h
      simp only [Option.some.injEq] at h
      refine ⟨[], ?_, by simp [← h]⟩
      show cf cur = none
      exact hc
    | some prev =>
      rw [hc] at h
      obtain ⟨ch, hchain, hp⟩ :=
        reconstructLoop_spec d cf fuel prev (acc ++ [_nodeIdToLongLat d prev]) p h
      refine ⟨prev :: ch, ?_, ?_⟩
      · show cf cur = some prev ∧ cfChain cf (prev :: ch)
        exact ⟨hc, hchain⟩
      · rw [hp]
        simp

/-- Main loop lemma: under the planner invariant, any path returned by the
SHORTEST-mode loop is the coordinate image of a node chain that starts at
the target node, ends at the start node, and steps only along way-adjacent
node pairs. -/
theorem planLoop_path_spec {β : Type} [LinearOrder β] [Add β] (d : MapData)
    (dist : Node → Node → β) (e s : ℕ) (hpre : d.node_to_way = _preprocessData d.ways) :
    ∀ (fuel : ℕ) (st : SearchState β) (p : List (ℚ × ℚ)),
      PlanInv d s st →
      planLoop d dist e false fuel st = some (some p) →
      ∃ chain : List ℕ, p = chain.map (_nodeIdToLongLat d) ∧
        chain.head? = some e ∧ chain.getLast? = some s ∧ chain.Chain' (Adjacent d)
  | 0, st, p => by
    intro _ h
    simp [planLoop] at h
  | fuel + 1, st, p => by
    intro hinv h
    rcases hos : st.open_set with _ | ⟨item, rest⟩ <;> simp only [planLoop, hos] at h
    · simp at h
    · by_cases hitem : item = e
      · rw [if_pos hitem] at h
        cases hrec : reconstructLoop d st.came_from (st.cf_keys.length + 1) item
            [_nodeIdToLongLat d item] with
        | none =>
          rw [hrec] at h
          exact Option.noConfusion (show (none : Option JSVal) = some (some p) from h)
        | some pp =>
          rw [hrec] at h
          have h2 : pp = p := by simpa using h
          obtain ⟨ch, hchain, hp⟩ :=
            reconstructLoop_spec d st.came_from _ item _ pp hrec
          have hitem_src : item = s ∨ (st.came_from item).isSome :=
            hinv.1 item (by rw [hos]; exact List.mem_cons_self _ _)
          -- the chain is nonempty, so it has a last element
          have hne : (item :: ch) ≠ [] := by simp
          have hlast : (item :: ch).getLast? = some ((item :: ch).getLast hne) :=
            List.getLast?_eq_getLast _ hne
          set z := (item :: ch).getLast hne with hz
          have hzcf : st.came_from z = none :=
            cfChain_getLast_none st.came_from (item :: ch) z hchain hlast
          have hzs : z = s := by
            rcases cfChain_getLast_cases st.came_from item ch z hchain hlast with h1 | h1
            · rcases hitem_src with h2 | h2
              · rw [h1, h2]
              · rw [h1] at hzcf
                rw [hzcf] at h2
                simp at h2
            · rcases h1 with ⟨w, hw⟩
              rcases (hinv.2 w z hw).2 with h2 | h2
              · exact h2
              · rw [hzcf] at h2
                simp at h2
          refine ⟨item :: ch, ?_, ?_, ?_, ?_⟩
          · rw [← h2, hp]
            simp
          · simp [hitem]
          · rw [hlast, hzs]
          · exact cfChain_adjacent d st.came_from
              (fun y x hyx => (hinv.2 y x hyx).1) (item :: ch) hchain
      · rw [if_neg hitem] at h
        cases hnb : _neighbors d item with
        | none =>
          rw [hnb] at h
          exact Option.noConfusion (show (none : Option JSVal) = some (some p) from h)
        | some nbrs =>
          rw [hnb] at h
          have hadj := neighbors_adjacent d hpre hnb
          have hinv2 : PlanInv d s { st with open_set := rest } := by
            constructor
            · intro x hx
              exact hinv.1 x (by rw [hos]; exact List.mem_cons_of_mem _ hx)
            · exact hinv.2
          have hitem_prop : item = s ∨ (st.came_from item).isSome :=
            hinv.1 item (by rw [hos]; exact List.mem_cons_self _ _)
          exact planLoop_path_spec d dist e s hpre fuel _ p
            (planStepNeighbors_inv nbrs _ hadj hinv2 hitem_prop) h

/-- C4: if SHORTEST-mode planning returns a path, its first coordinate is
the end RoadPosition's snapped node coordinate, its last coordinate is the
start RoadPosition's snapped node coordinate, and the path is the coordinate
image of a node chain whose consecutive nodes are adjacent within some way
of the graph. -/
theorem C4_plan_path_valid {β : Type} [LinearOrder β] [Add β] [Zero β] (d : MapData)
    (dist : Node → Node → β) (s e : ℕ × ℕ × ℚ) (b : ℕ) (p : List (ℚ × ℚ))
    (hpre : d.node_to_way = _preprocessData d.ways)
    (hp : _planRoute d dist (some s) (some e) false b = some (some p)) :
    p.head? = some (_nodeIdToLongLat d (snappedNode d e)) ∧
    p.getLast? = some (_nodeIdToLongLat d (snappedNode d s)) ∧
    ∃ chain : List ℕ, p = chain.map (_nodeIdToLongLat d) ∧
      chain.head? = some (snappedNode d e) ∧
      chain.getLast? = some (snappedNode d s) ∧
      chain.Chain' (Adjacent d) := by
  simp only [_planRoute] at hp
  have hinv0 : PlanInv d (snappedNode d s)
      ({ open_set := [snappedNode d s]
         came_from := fun _ => none
         cf_keys := []
         g_score := fun n => if n = snappedNode d s then (0 : WithTop β) else ⊤
         f_score := fun n =>
           if n = snappedNode d s then
             ((dist (d.nodes.getD (snappedNode d s) default)
               (d.nodes.getD (snappedNode d e) default) : β) : WithTop β)
           else ⊤
         f_keys := [snappedNode d s] } : SearchState β) := by
    constructor
    · intro x hx
      simp at hx
      exact Or.inl hx
    · intro y x hyx
      simp at hyx
  obtain ⟨chain, hmap, hh, hl, hc⟩ :=
    planLoop_path_spec d dist (snappedNode d e) (snappedNode d s) hpre b _ p hinv0 hp
  refine ⟨?_, ?_, chain, hmap, hh, hl, hc⟩
  · rw [hmap, List.head?_map, hh]
    rfl
  · rw [hmap, List.getLast?_map, hl]
    rfl

/-- C4 witness: the concrete budget-3 run on the test graph, with the path
endpoints at the snapped nodes of the two RoadPositions and an adjacency
chain behind it. -/
theorem C4_plan_path_valid_witness :
    ([_nodeIdToLongLat testData 1, _nodeIdToLongLat testData 0] : List (ℚ × ℚ)).head? =
      some (_nodeIdToLongLat testData (snappedNode testData (0, 1, 0))) ∧
    ([_nodeIdToLongLat testData 1, _nodeIdToLongLat testData 0] : List (ℚ × ℚ)).getLast? =
      some (_nodeIdToLongLat testData (snappedNode testData (0, 0, 0))) ∧
    ∃ chain : List ℕ,
      [_nodeIdToLongLat testData 1, _nodeIdToLongLat testData 0] =
        chain.map (_nodeIdToLongLat testData) ∧
      chain.head? = some (snappedNode testData (0, 1, 0)) ∧
      chain.getLast? = some (snappedNode testData (0, 0, 0)) ∧
      chain.Chain' (Adjacent testData) :=
  C4_plan_path_valid testData distZ (0, 0, 0) (0, 1, 0) 3
    [_nodeIdToLongLat testData 1, _nodeIdToLongLat testData 0] rfl planRun_budget3
